import Mathlib

/-!
Shallow embedding of the PDF attendance extractor (backend/extractor.py and
backend/exporter.py) and proofs about it.

Python strings are modelled as Lean `String` (lists of characters); `None`
cells are `Option String`.  Machinery that can raise (`pdfplumber.open`,
`page.extract_tables`, `StudentRecord(**fields)`) is modelled with
`Except`/`Option`.  The dictionaries `DEFAULT_COLUMNS` (insertion-ordered)
and the column map are modelled as association lists in insertion order.
-/

namespace PdfAttendance

/-! ### Python string primitives -/

/-- Python `str.strip()`: drop whitespace from both ends. -/
def pystrip (s : String) : String :=
  ⟨((s.data.dropWhile Char.isWhitespace).reverse.dropWhile Char.isWhitespace).reverse⟩

/-- Python `str.lower()` (per-character lowering). -/
def pyLower (s : String) : String := ⟨s.data.map Char.toLower⟩

/-- Worker for `pyWords`: `acc` is the current word, reversed. -/
def pyWordsGo : List Char → List Char → List (List Char)
  | acc, [] => if acc.isEmpty then [] else [acc.reverse]
  | acc, c :: cs =>
    if c.isWhitespace then
      if acc.isEmpty then pyWordsGo [] cs else acc.reverse :: pyWordsGo [] cs
    else pyWordsGo (c :: acc) cs

/-- Words of a character list in the sense of Python `str.split()` with no
separator: maximal runs of non-whitespace characters, empties dropped. -/
def pyWords (l : List Char) : List (List Char) := pyWordsGo [] l

/-- `" ".join` on word lists. -/
def joinWords : List (List Char) → List Char
  | [] => []
  | [w] => w
  | w :: ws => w ++ ' ' :: joinWords ws

/-- Python `sub in hay` (substring test), prefix helper. -/
def isPrefixCh : List Char → List Char → Bool
  | [], _ => true
  | _ :: _, [] => false
  | a :: as, b :: bs => a == b && isPrefixCh as bs

/-- Python `sub in hay` (substring test) on character lists. -/
def isSubCh (s : List Char) : List Char → Bool
  | [] => s.isEmpty
  | b :: bs => isPrefixCh s (b :: bs) || isSubCh s bs

/-- Python `sub in hay` on strings. -/
def strIn (sub hay : String) : Bool := isSubCh sub.data hay.data

/-- Python `a or b` for strings (empty string is falsy). -/
def pyOr (a b : String) : String := if a ≠ "" then a else b

/-- Python `" ".join(parts)` (keeps empty parts, single space between). -/
def joinSpace : List String → String
  | [] => ""
  | [s] => s
  | s :: rest => s ++ " " ++ joinSpace rest

/-! ### extractor.py: synonym table and helpers -/

/-- `DEFAULT_COLUMNS` from extractor.py, as an insertion-ordered assoc list. -/
def DEFAULT_COLUMNS : List (String × List String) := [
  ("lastname", ["lastname", "last name", "last_name", "surname"]),
  ("firstname", ["firstname", "first name", "first_name", "given name"]),
  ("middlename", ["middlename", "middle name", "middle_name", "mi", "m.i."]),
  ("extension", ["extension", "ext", "ext.", "name extension", "suffix"]),
  ("gender", ["gender", "sex"])]

abbrev Synonyms := List (String × List String)
abbrev Row := List (Option String)
abbrev Table := List Row
abbrev ColMap := List (Nat × String)

/-- `_normalise`: lowercase, strip, collapse inner whitespace (`None` → `""`). -/
def normalise : Option String → String
  | none => ""
  | some s => ⟨joinWords (pyWords (s.data.map Char.toLower))⟩

/-- Python `columns or DEFAULT_COLUMNS` (`None` and `{}` both fall back). -/
def resolveColumns : Option Synonyms → Synonyms
  | none => DEFAULT_COLUMNS
  | some c => if c = [] then DEFAULT_COLUMNS else c

/-- `_match_column`: normalise the header then return the first canonical
field (declaration order) with a synonym `v` such that `v in h or h in v`. -/
def match_column (header : String) (columns : Option Synonyms) : Option String :=
  let h := normalise (some header)
  if h = "" then none
  else (resolveColumns columns).findSome? fun cv =>
    cv.2.findSome? fun v => if strIn v h || strIn h v then some cv.1 else none

/-- The header-cell lookup performed by `_build_column_map`:
`_match_column(raw if raw else "")`. -/
def matchCell (c : Option String) (columns : Option Synonyms) : Option String :=
  match_column (c.getD "") columns

/-- Worker for `_build_column_map`: walk the header cells left to right,
recording `(index, field)` when the field is truthy and not yet claimed. -/
def buildMapFrom (columns : Option Synonyms) (idx : Nat) (acc : ColMap) :
    List (Option String) → ColMap
  | [] => acc
  | c :: t =>
    match matchCell c columns with
    | some f =>
      if f ≠ "" ∧ ∀ q ∈ acc, q.2 ≠ f then
        buildMapFrom columns (idx + 1) (acc ++ [(idx, f)]) t
      else buildMapFrom columns (idx + 1) acc t
    | none => buildMapFrom columns (idx + 1) acc t

/-- `_build_column_map`: column-index → canonical field, first match wins. -/
def build_column_map (headers : List (Option String)) (columns : Option Synonyms) : ColMap :=
  buildMapFrom columns 0 [] headers

/-! ### StudentRecord and projection -/

/-- `StudentRecord` dataclass. -/
structure StudentRecord where
  lastname : String := ""
  firstname : String := ""
  middlename : String := ""
  extension : String := ""
  gender : String := ""
deriving Repr, DecidableEq

/-- `StudentRecord.is_empty`: `not any([...])` — true iff every field is the
empty string (Python string truthiness). -/
def StudentRecord.is_empty (r : StudentRecord) : Bool :=
  !([r.lastname, r.firstname, r.middlename, r.extension, r.gender].any
    fun s => s ≠ "")

/-- The five fields of a record, in dataclass order. -/
def fieldsOf (r : StudentRecord) : List String :=
  [r.lastname, r.firstname, r.middlename, r.extension, r.gender]

/-- `StudentRecord(**fields)` for a single keyword: `none` models the
`TypeError` raised on an unexpected keyword. -/
def setField (r : StudentRecord) (name v : String) : Option StudentRecord :=
  if name = "lastname" then some { r with lastname := v }
  else if name = "firstname" then some { r with firstname := v }
  else if name = "middlename" then some { r with middlename := v }
  else if name = "extension" then some { r with extension := v }
  else if name = "gender" then some { r with gender := v }
  else none

/-- The value stored for one mapped column:
`row[idx] if idx < len(row) else None`, then `str(val).strip() if val else ""`. -/
def cellField (row : Row) (idx : Nat) : String :=
  match (if idx < row.length then row.getD idx none else none) with
  | none => ""
  | some s => if s = "" then "" else pystrip s

/-- Worker for `_row_to_student`: apply each column-map entry in turn. -/
def rowToStudentAux (row : Row) : ColMap → StudentRecord → Option StudentRecord
  | [], r => some r
  | (idx, canonical) :: rest, r =>
    match setField r canonical (cellField row idx) with
    | none => none
    | some r2 => rowToStudentAux row rest r2

/-- `_row_to_student`: project one data row through the column map
(out-of-range and falsy cells become `""`, others are stripped). -/
def row_to_student (row : Row) (colMap : ColMap) : Option StudentRecord :=
  rowToStudentAux row colMap {}

/-! ### ExtractionResult and the table walker -/

/-- `ExtractionResult` dataclass. -/
structure ExtractionResult where
  source_file : String
  students : List StudentRecord := []
  errors : List String := []
deriving Repr, DecidableEq

/-- `cell is None or str(cell).strip() == ""`. -/
def isBlankCell : Option String → Bool
  | none => true
  | some s => pystrip s == ""

/-- The inner `for row in data_rows` loop: skip blank rows, project the rest,
append non-empty records.  The error value carries the students accumulated
before the failure (appended records survive an exception). -/
def processRows (colMap : ColMap) (acc : List StudentRecord) :
    List Row → Except (List StudentRecord × String) (List StudentRecord)
  | [] => .ok acc
  | row :: rest =>
    if row.isEmpty || row.all isBlankCell then processRows colMap acc rest
    else
      match row_to_student row colMap with
      | none => .error (acc, "TypeError")
      | some s =>
        processRows colMap (if s.is_empty then acc else acc ++ [s]) rest

/-- One iteration of the `for table in tables` loop.  The first component of
the state is the Python variable `col_map : dict | None`; note that a failed
header attempt stores the *empty dict* (`some []`), not `none`. -/
def processTable (columns : Option Synonyms) (cm : Option ColMap)
    (acc : List StudentRecord) (table : Table) :
    Except (List StudentRecord × String) (Option ColMap × List StudentRecord) :=
  if table.length < 2 then .ok (cm, acc)
  else
    match cm with
    | none =>
      if build_column_map (table.headD []) columns = [] then
        if 2 < table.length then
          if build_column_map (table.getD 1 []) columns = [] then
            .ok (some (build_column_map (table.getD 1 []) columns), acc)
          else
            match processRows (build_column_map (table.getD 1 []) columns) acc
                (table.drop 2) with
            | .ok s => .ok (some (build_column_map (table.getD 1 []) columns), s)
            | .error e => .error e
        else .ok (some (build_column_map (table.headD []) columns), acc)
      else
        match processRows (build_column_map (table.headD []) columns) acc
            (table.drop 1) with
        | .ok s => .ok (some (build_column_map (table.headD []) columns), s)
        | .error e => .error e
    | some m =>
      if build_column_map (table.headD []) columns ≠ [] ∧
          2 ≤ (build_column_map (table.headD []) columns).length then
        match processRows m acc (table.drop 1) with
        | .ok s => .ok (some m, s)
        | .error e => .error e
      else
        match processRows m acc table with
        | .ok s => .ok (some m, s)
        | .error e => .error e

/-- The `for table in tables` loop. -/
def processTables (columns : Option Synonyms) (cm : Option ColMap)
    (acc : List StudentRecord) :
    List Table → Except (List StudentRecord × String) (Option ColMap × List StudentRecord)
  | [] => .ok (cm, acc)
  | t :: ts =>
    match processTable columns cm acc t with
    | .ok (cm2, acc2) => processTables columns cm2 acc2 ts
    | .error e => .error e

/-- The `for page in pdf.pages` loop; a page whose `extract_tables()` raises
is an `.error` page and aborts the walk with the students kept so far. -/
def walkPages (columns : Option Synonyms) (cm : Option ColMap)
    (acc : List StudentRecord) :
    List (Except String (List Table)) →
    Except (List StudentRecord × String) (Option ColMap × List StudentRecord)
  | [] => .ok (cm, acc)
  | pg :: pgs =>
    match pg with
    | .error e => .error (acc, e)
    | .ok tables =>
      match processTables columns cm acc tables with
      | .ok (cm2, acc2) => walkPages columns cm2 acc2 pgs
      | .error e => .error e

/-! ### extract_from_pdf -/

/-- The input path: its components (the last one is `Path.name`) and whether
the file exists on disk. -/
structure PathInput where
  components : List String
  pexists : Bool
deriving Repr, DecidableEq

/-- `Path(...).name`. -/
def pathName (p : PathInput) : String := p.components.getLastD ""

/-- `str(Path(...))` (POSIX rendering). -/
def pathStr (p : PathInput) : String := String.intercalate "/" p.components

/-- `Path.suffix` (CPython: the part from the last dot, when that dot is
neither the first nor the last character of the name). -/
def pathSuffix (name : String) : String :=
  let cs := name.data
  let j := cs.reverse.findIdx (fun c => c == '.')
  if cs.length ≤ j then ""
  else
    let i := cs.length - 1 - j
    if 0 < i ∧ i < cs.length - 1 then ⟨cs.drop i⟩ else ""

/-- The opened document: one entry per page, each either the page's tables or
an exception raised by `extract_tables()`. -/
structure PdfDoc where
  pages : List (Except String (List Table))
deriving Repr

/-- Body of `extract_from_pdf`: everything that feeds `result.students` and
`result.errors` (the pre-flight checks, the `try` block, the terminal
no-table check and the `except` clause). -/
def extractCore (p : PathInput) (opened : Except String PdfDoc)
    (columns : Option Synonyms) : List StudentRecord × List String :=
  if p.pexists = false then ([], ["File not found: " ++ pathStr p])
  else if pyLower (pathSuffix (pathName p)) ≠ ".pdf" then
    ([], ["Not a PDF file: " ++ pathName p])
  else
    match opened with
    | .error e => ([], ["Error processing " ++ pathName p ++ ": " ++ e])
    | .ok doc =>
      if doc.pages.isEmpty then ([], ["PDF has no pages: " ++ pathName p])
      else
        match walkPages columns none [] doc.pages with
        | .ok (cm, students) =>
          if cm.isNone then
            (students, ["No recognisable attendance table found in: " ++ pathName p])
          else (students, [])
        | .error (students, e) =>
          (students, ["Error processing " ++ pathName p ++ ": " ++ e])

/-- `extract_from_pdf`: the result object is created with
`source_file=file_path.name` and only its `students`/`errors` are mutated. -/
def extract_from_pdf (p : PathInput) (opened : Except String PdfDoc)
    (columns : Option Synonyms) : ExtractionResult :=
  { source_file := pathName p
    students := (extractCore p opened columns).1
    errors := (extractCore p opened columns).2 }

/-! ### aggregate_students and the exporter's full-name composer -/

/-- One aggregated record: the student's fields plus provenance. -/
structure AggRecord where
  lastname : String
  firstname : String
  middlename : String
  extension : String
  gender : String
  source_file : String
deriving Repr, DecidableEq

/-- `aggregate_students`: flatten results, tagging each row with the owning
file's `source_file`. -/
def aggregate_students : List ExtractionResult → List AggRecord
  | [] => []
  | res :: rest =>
    res.students.map (fun s =>
      ⟨s.lastname, s.firstname, s.middlename, s.extension, s.gender,
        res.source_file⟩) ++ aggregate_students rest

/-- `_build_full_name` from exporter.py (`(record.get(k) or "").strip()`
then `"{last}, {first} {middle} {ext}"` with the shown joining logic). -/
def build_full_name (lastname firstname middlename ext : String) : String :=
  let last := pystrip lastname
  let first := pystrip firstname
  let middle := pystrip middlename
  let e := pystrip ext
  let name_parts := [first] ++ (if middle ≠ "" then [middle] else []) ++
    (if e ≠ "" then [e] else [])
  let after_comma := joinSpace name_parts
  if last ≠ "" ∧ after_comma ≠ "" then last ++ ", " ++ after_comma
  else pyOr last (pyOr after_comma "")

/-! ### Spec-side definitions (for refinement comparisons) -/

/-- Spec-side restatement of the Header Matcher (§4.1): first canonical field
in declaration order having a synonym `v` with `v` a substring of the
normalised header or the normalised header a substring of `v`. -/
def match_column_spec (header : String) (columns : Option Synonyms) : Option String :=
  let h := normalise (some header)
  if h = "" then none
  else (resolveColumns columns).findSome? fun cv =>
    if cv.2.any (fun v => strIn v h || strIn h v) then some cv.1 else none

/-- Spec-side full-name composer (§6): empty parts omitted, separators
collapsed, no leading comma when lastname is empty. -/
def full_name_spec (lastname firstname middlename ext : String) : String :=
  let parts := [pystrip firstname, pystrip middlename, pystrip ext].filter
    (fun s => s ≠ "")
  let after := joinSpace parts
  let last := pystrip lastname
  if last = "" then after
  else if after = "" then last
  else last ++ ", " ++ after

/-- Remove every whitespace character (used to state that two headers differ
only in whitespace). -/
def stripWs (s : String) : String := ⟨s.data.filter (fun c => !c.isWhitespace)⟩

/-- A record with at least one field that is non-blank after trimming. -/
def hasNonBlankField (r : StudentRecord) : Bool :=
  (fieldsOf r).any (fun f => pystrip f ≠ "")

/-- The students visible in a row-loop outcome (kept on both success and
exception). -/
def studentsOfRows :
    Except (List StudentRecord × String) (List StudentRecord) → List StudentRecord
  | .ok s => s
  | .error (s, _) => s

/-- The students visible in a table/page-walk outcome. -/
def studentsOfWalk :
    Except (List StudentRecord × String) (Option ColMap × List StudentRecord) →
    List StudentRecord
  | .ok (_, s) => s
  | .error (s, _) => s

/-! ### C1 / C2: the corrupted NO_HEADER_YET state -/

/-- C1: the claim says that after a failed header detection the walker stays
in `NO_HEADER_YET` (so the next table's first row is tried under the
at-least-one-field rule).  The code instead stores the empty dict in
`col_map`: on the document below, the first table fails header detection,
and the second table — whose first row maps one field, `lastname`, and whose
data row holds "Cruz" — is then processed under the established-state ≥2
rule with the empty map, so the document yields no student at all. -/
theorem c1_header_failure_state_bug :
    processTables none none []
      [[[some "No", some "StudentID"], [some "1", some "2021-001"]]] =
      .ok (some [], []) ∧
    build_column_map [some "Lastname", some "Remarks"] none = [(0, "lastname")] ∧
    extract_from_pdf ⟨["a.pdf"], true⟩
      (.ok ⟨[.ok [[[some "No", some "StudentID"], [some "1", some "2021-001"]],
                  [[some "Lastname", some "Remarks"], [some "Cruz", some "ok"]]]]⟩)
      none = ⟨"a.pdf", [], []⟩ := by
  refine ⟨?_, ?_, ?_⟩ <;> rfl

/-- C2: the claim says a document in which no row is ever recognised as a
header gets a "no recognisable attendance table" error.  On the document
below neither row of the only table maps any field, yet the result carries
no error (the failed attempt set `col_map` to the empty dict, so the
terminal `col_map is None` check does not fire). -/
theorem c2_missing_error_bug :
    build_column_map [some "No", some "StudentID"] none = [] ∧
    build_column_map [some "1", some "2021-001"] none = [] ∧
    extract_from_pdf ⟨["b.pdf"], true⟩
      (.ok ⟨[.ok [[[some "No", some "StudentID"], [some "1", some "2021-001"]]]]⟩)
      none = ⟨"b.pdf", [], []⟩ := by
  refine ⟨?_, ?_, ?_⟩ <;> rfl

/-! ### C3: re-declared headers do not replace the carried-forward map -/

/-- C3 counterexample: after a first table establishes `{0: lastname}`, a
second table re-declares a header with two recognised fields
(`Firstname`, `Lastname`).  The claim says its data row is projected with
the fresh map (giving `lastname="Cruz", firstname="Juan"`), but the code
projects it with the carried-forward map, giving `lastname="Juan"`. -/
theorem c3_counterexample :
    extract_from_pdf ⟨["a.pdf"], true⟩
      (.ok ⟨[.ok [[[some "Lastname"], [some "Smith"]],
                  [[some "Firstname", some "Lastname"], [some "Juan", some "Cruz"]]]]⟩)
      none =
      ⟨"a.pdf", [⟨"Smith", "", "", "", ""⟩, ⟨"Juan", "", "", "", ""⟩], []⟩ ∧
    build_column_map [some "Firstname", some "Lastname"] none =
      [(0, "firstname"), (1, "lastname")] ∧
    row_to_student [some "Juan", some "Cruz"] [(0, "firstname"), (1, "lastname")] =
      some ⟨"Cruz", "Juan", "", "", ""⟩ ∧
    (⟨"Juan", "", "", "", ""⟩ : StudentRecord) ≠ ⟨"Cruz", "Juan", "", "", ""⟩ := by
  refine ⟨?_, ?_, ?_, ?_⟩
  · rfl
  · rfl
  · rfl
  · decide

/-! ### C5: is_empty tests emptiness, not blank-after-trim -/

/-- C5 counterexample: a record whose only non-empty field is a single space
has every field empty-or-whitespace, yet `is_empty` returns false. -/
theorem c5_counterexample :
    (StudentRecord.mk " " "" "" "" "").is_empty = false ∧ pystrip " " = "" := by
  refine ⟨?_, ?_⟩ <;> rfl

/-- C5 amended: `is_empty` returns true iff each of the five fields is the
empty string (a whitespace-only field counts as non-empty). -/
theorem c5_is_empty_iff_all_empty :
    ∀ r : StudentRecord, r.is_empty = true ↔
      (r.lastname = "" ∧ r.firstname = "" ∧ r.middlename = "" ∧
        r.extension = "" ∧ r.gender = "") := by
  intro r
  simp [StudentRecord.is_empty]

/-! ### C7: whitespace-insensitivity fails for internal whitespace -/

/-- C7 counterexample: "M.I." and "M . I ." differ only in whitespace
(case-folding and deleting all whitespace make them equal), yet the first
resolves to `middlename` and the second resolves to nothing, because
normalisation collapses internal whitespace runs but does not delete them. -/
theorem c7_counterexample :
    stripWs (pyLower "M.I.") = stripWs (pyLower "M . I .") ∧
    match_column "M.I." none = some "middlename" ∧
    match_column "M . I ." none = none := by
  refine ⟨?_, ?_, ?_⟩ <;> rfl

/-! ### C9: double space when firstname is empty -/

/-- C9 counterexample: with lastname "Cruz", empty firstname and middlename
"Santos" the composer emits "Cruz,  Santos" — the empty firstname still
contributes a separator, so the surrounding separators are not collapsed. -/
theorem c9_counterexample :
    build_full_name "Cruz" "" "Santos" "" = "Cruz,  Santos" ∧
    ("Cruz,  Santos" : String) ≠ "Cruz, Santos" := by
  refine ⟨?_, ?_⟩
  · rfl
  · decide

/-! ### C10: provenance is always the basename -/

/-- C10: for every input and every outcome the result's `source_file` is the
final path component; two paths with the same basename are indistinguishable
in the result, and every aggregated record carries the `source_file` of the
result that owns it. -/
theorem c10_source_file_basename :
    (∀ (p : PathInput) (opened : Except String PdfDoc) (cols : Option Synonyms),
      (extract_from_pdf p opened cols).source_file = p.components.getLastD "") ∧
    (∀ (p₁ : PathInput) (o₁ : Except String PdfDoc) (c₁ : Option Synonyms)
      (p₂ : PathInput) (o₂ : Except String PdfDoc) (c₂ : Option Synonyms),
      p₁.components.getLastD "" = p₂.components.getLastD "" →
      (extract_from_pdf p₁ o₁ c₁).source_file = (extract_from_pdf p₂ o₂ c₂).source_file) ∧
    (∀ (rs : List ExtractionResult) (a : AggRecord), a ∈ aggregate_students rs →
      ∃ r, r ∈ rs ∧ a.source_file = r.source_file) := by
  refine ⟨fun p o c => rfl, fun p₁ o₁ c₁ p₂ o₂ c₂ h => h, ?_⟩
  intro rs
  induction rs with
  | nil => intro a ha; simp [aggregate_students] at ha
  | cons r rest ih =>
    intro a ha
    simp only [aggregate_students, List.mem_append, List.mem_map] at ha
    rcases ha with ⟨s, _, rfl⟩ | h
    · exact ⟨r, by simp, rfl⟩
    · obtain ⟨r', hr', he⟩ := ih a h
      exact ⟨r', by simp [hr'], he⟩

/-- Witness for C10: two paths in different directories but with the same
file name produce results with identical provenance, whatever happens. -/
theorem c10_source_file_basename_witness :
    (extract_from_pdf ⟨["d1", "f.pdf"], true⟩ (.error "boom") none).source_file =
    (extract_from_pdf ⟨["d2", "f.pdf"], false⟩ (.ok ⟨[]⟩) none).source_file :=
  c10_source_file_basename.2.1 ⟨["d1", "f.pdf"], true⟩ (.error "boom") none
    ⟨["d2", "f.pdf"], false⟩ (.ok ⟨[]⟩) none rfl

/-! ### C8: pre-flight checks and exception degradation -/

/-- C8: the pre-flight failures (missing file, wrong extension, zero pages)
and the two exception sites (open, page walk) each yield a result with the
single stated error and the students accumulated so far (none for the
pre-flight checks); in every case the result carries at most one error, and
`extract_from_pdf` is a total function of its inputs. -/
theorem c8_no_exception_single_error :
    ∀ (p : PathInput) (opened : Except String PdfDoc) (cols : Option Synonyms),
    (p.pexists = false →
      extract_from_pdf p opened cols =
        ⟨pathName p, [], ["File not found: " ++ pathStr p]⟩) ∧
    (p.pexists = true → pyLower (pathSuffix (pathName p)) ≠ ".pdf" →
      extract_from_pdf p opened cols =
        ⟨pathName p, [], ["Not a PDF file: " ++ pathName p]⟩) ∧
    (∀ e, p.pexists = true → pyLower (pathSuffix (pathName p)) = ".pdf" →
      opened = .error e →
      extract_from_pdf p opened cols =
        ⟨pathName p, [], ["Error processing " ++ pathName p ++ ": " ++ e]⟩) ∧
    (∀ doc, p.pexists = true → pyLower (pathSuffix (pathName p)) = ".pdf" →
      opened = .ok doc → doc.pages = [] →
      extract_from_pdf p opened cols =
        ⟨pathName p, [], ["PDF has no pages: " ++ pathName p]⟩) ∧
    (∀ doc sts e, p.pexists = true → pyLower (pathSuffix (pathName p)) = ".pdf" →
      opened = .ok doc → walkPages cols none [] doc.pages = .error (sts, e) →
      extract_from_pdf p opened cols =
        ⟨pathName p, sts, ["Error processing " ++ pathName p ++ ": " ++ e]⟩) ∧
    (extract_from_pdf p opened cols).errors.length ≤ 1 := by
  intro p opened cols
  refine ⟨?_, ?_, ?_, ?_, ?_, ?_⟩
  · intro h
    simp [extract_from_pdf, extractCore, h]
  · intro h hs
    simp [extract_from_pdf, extractCore, h, hs]
  · intro e h hs ho
    simp [extract_from_pdf, extractCore, h, hs, ho]
  · intro doc h hs ho hp
    simp [extract_from_pdf, extractCore, h, hs, ho, hp, List.isEmpty_nil]
  · intro doc sts e h hs ho hw
    have hne : doc.pages ≠ [] := by
      intro hnil
      rw [hnil] at hw
      simp [walkPages] at hw
    have hie : doc.pages.isEmpty = false := by
      cases hd : doc.pages with
      | nil => exact absurd hd hne
      | cons a t => rfl
    simp [extract_from_pdf, extractCore, h, hs, ho, hw, hie]
  · unfold extract_from_pdf extractCore
    split
    · simp
    · split
      · simp
      · split
        · simp
        · split
          · simp
          · split
            · split <;> simp
            · simp

/-- Witness for C8: the missing-file pre-flight check at a concrete path. -/
theorem c8_no_exception_single_error_witness :
    extract_from_pdf ⟨["nope.pdf"], false⟩ (.error "io") none =
      ⟨"nope.pdf", [], ["File not found: nope.pdf"]⟩ :=
  (c8_no_exception_single_error ⟨["nope.pdf"], false⟩ (.error "io") none).1 rfl

/-- C3 amended: in `HEADER_ESTABLISHED`, when a table's first row yields a
column map with at least 2 recognised fields, only that first row is skipped
(treated as a header); the remaining rows are still projected with the
previously carried-forward column map `m` — the freshly built map is used
solely for the ≥2 test and is then discarded. -/
theorem c3_amended_carried_map :
    ∀ (columns : Option Synonyms) (m : ColMap) (acc : List StudentRecord)
      (table : Table),
    2 ≤ table.length →
    2 ≤ (build_column_map (table.headD []) columns).length →
    processTable columns (some m) acc table =
      match processRows m acc (table.drop 1) with
      | .ok s => .ok (some m, s)
      | .error e => .error e := by
  intro columns m acc table hlen hmap
  have hne : build_column_map (table.headD []) columns ≠ [] := by
    intro h
    rw [h] at hmap
    simp at hmap
  have h2 : ¬ table.length < 2 := by omega
  simp only [processTable, if_neg h2]
  rw [if_pos ⟨hne, hmap⟩]

/-- Witness for C3 amended: the second table of the C3 counterexample. -/
theorem c3_amended_carried_map_witness :
    processTable none (some [(0, "lastname")]) []
      [[some "Firstname", some "Lastname"], [some "Juan", some "Cruz"]] =
      match processRows [(0, "lastname")] [] [[some "Juan", some "Cruz"]] with
      | .ok s => .ok (some [(0, "lastname")], s)
      | .error e => .error e :=
  c3_amended_carried_map none [(0, "lastname")] []
    [[some "Firstname", some "Lastname"], [some "Juan", some "Cruz"]]
    (by decide) (by decide)

/-! ### C4: every emitted record has a non-blank field -/

theorem dropWhile_idem (p : α → Bool) (l : List α) :
    (l.dropWhile p).dropWhile p = l.dropWhile p := by
  induction l with
  | nil => rfl
  | cons a t ih =>
    by_cases h : p a = true
    · rw [List.dropWhile_cons_of_pos h]
      exact ih
    · rw [List.dropWhile_cons_of_neg h, List.dropWhile_cons_of_neg h]

theorem head?_of_dropWhile (p : α → Bool) :
    ∀ (l : List α) (a : α), (l.dropWhile p).head? = some a → p a = false := by
  intro l
  induction l with
  | nil => intro a h; simp [List.dropWhile] at h
  | cons b t ih =>
    intro a h
    by_cases hb : p b = true
    · rw [List.dropWhile_cons_of_pos hb] at h
      exact ih a h
    · rw [List.dropWhile_cons_of_neg hb] at h
      simp at h
      subst h
      cases hpb : p b with
      | true => exact absurd hpb hb
      | false => rfl

theorem getLast?_of_dropWhile (p : α → Bool) :
    ∀ (l : List α) (a : α), (l.dropWhile p).getLast? = some a →
      l.getLast? = some a := by
  intro l
  induction l with
  | nil => intro a h; simp [List.dropWhile] at h
  | cons b t ih =>
    intro a h
    by_cases hb : p b = true
    · rw [List.dropWhile_cons_of_pos hb] at h
      have ht := ih a h
      cases t with
      | nil => simp at ht
      | cons c t2 =>
        rw [List.getLast?_cons_cons]
        exact ht
    · rw [List.dropWhile_cons_of_neg hb] at h
      exact h

theorem getLast?_of_reverse (l : List α) : l.reverse.getLast? = l.head? := by
  cases l with
  | nil => rfl
  | cons a t =>
    rw [List.reverse_cons, List.getLast?_append_cons]
    rfl

theorem head?_of_reverse (l : List α) : l.reverse.head? = l.getLast? := by
  conv_rhs => rw [← List.reverse_reverse l]
  exact (getLast?_of_reverse l.reverse).symm

theorem dropWhile_eq_self_of_head (p : α → Bool) (l : List α)
    (h : ∀ a, l.head? = some a → p a = false) : l.dropWhile p = l := by
  cases l with
  | nil => rfl
  | cons a t => exact List.dropWhile_cons_of_neg (by simp [h a rfl])

theorem strip_ends_idem (p : α → Bool) (l : List α) :
    (((((((l.dropWhile p).reverse.dropWhile p).reverse).dropWhile p).reverse).dropWhile
      p).reverse) = ((l.dropWhile p).reverse.dropWhile p).reverse := by
  have h1 : (((l.dropWhile p).reverse.dropWhile p).reverse).dropWhile p =
      ((l.dropWhile p).reverse.dropWhile p).reverse := by
    apply dropWhile_eq_self_of_head
    intro a ha
    rw [head?_of_reverse] at ha
    have h2 := getLast?_of_dropWhile p _ a ha
    rw [getLast?_of_reverse] at h2
    exact head?_of_dropWhile p _ a h2
  rw [h1, List.reverse_reverse, dropWhile_idem]

/-- Python `strip` is idempotent. -/
theorem pystrip_idem (s : String) : pystrip (pystrip s) = pystrip s :=
  congrArg String.mk (strip_ends_idem Char.isWhitespace s.data)

/-- A record whose five fields are all fixed points of `pystrip`. -/
def StrippedRec (r : StudentRecord) : Prop := ∀ f ∈ fieldsOf r, pystrip f = f

theorem strippedRec_default : StrippedRec {} := by
  intro f hf
  simp [fieldsOf] at hf
  subst hf
  rfl

theorem pystrip_cellField (row : Row) (idx : Nat) :
    pystrip (cellField row idx) = cellField row idx := by
  unfold cellField
  cases (if idx < row.length then row.getD idx none else none) with
  | none => rfl
  | some s =>
    by_cases hs : s = ""
    · simp [hs]
      rfl
    · simp [hs, pystrip_idem]

theorem setField_stripped (r : StudentRecord) (name v : String)
    (hr : StrippedRec r) (hv : pystrip v = v) :
    ∀ r2, setField r name v = some r2 → StrippedRec r2 := by
  intro r2 h
  have h1 := hr r.lastname (by simp [fieldsOf])
  have h2 := hr r.firstname (by simp [fieldsOf])
  have h3 := hr r.middlename (by simp [fieldsOf])
  have h4 := hr r.extension (by simp [fieldsOf])
  have h5 := hr r.gender (by simp [fieldsOf])
  unfold setField at h
  split_ifs at h <;>
    first
      | (injection h with hh; subst hh;
          intro f hf; simp [fieldsOf] at hf;
          rcases hf with rfl | rfl | rfl | rfl | rfl <;> assumption)
      | injection h

theorem rowToStudentAux_stripped (row : Row) :
    ∀ (cm : ColMap) (r r2 : StudentRecord), StrippedRec r →
      rowToStudentAux row cm r = some r2 → StrippedRec r2 := by
  intro cm
  induction cm with
  | nil =>
    intro r r2 hr h
    injection h with h
    subst h
    exact hr
  | cons q rest ih =>
    intro r r2 hr h
    obtain ⟨idx, canonical⟩ := q
    simp only [rowToStudentAux] at h
    cases hsf : setField r canonical (cellField row idx) with
    | none =>
      rw [hsf] at h
      exact Option.noConfusion h
    | some r1 =>
      rw [hsf] at h
      exact ih r1 r2
        (setField_stripped r canonical _ hr (pystrip_cellField row idx) r1 hsf) h

theorem row_to_student_stripped (row : Row) (cm : ColMap) (r : StudentRecord)
    (h : row_to_student row cm = some r) : StrippedRec r :=
  rowToStudentAux_stripped row cm {} r strippedRec_default h

theorem hasNonBlank_of_not_empty (r : StudentRecord) (hr : StrippedRec r)
    (h : r.is_empty = false) : hasNonBlankField r = true := by
  have h1 := hr r.lastname (by simp [fieldsOf])
  have h2 := hr r.firstname (by simp [fieldsOf])
  have h3 := hr r.middlename (by simp [fieldsOf])
  have h4 := hr r.extension (by simp [fieldsOf])
  have h5 := hr r.gender (by simp [fieldsOf])
  simp [StudentRecord.is_empty] at h
  simp [hasNonBlankField, fieldsOf, h1, h2, h3, h4, h5]
  tauto

theorem processRows_nonblank (cm : ColMap) :
    ∀ (rows : List Row) (acc : List StudentRecord),
      (∀ r ∈ acc, hasNonBlankField r = true) →
      ∀ r ∈ studentsOfRows (processRows cm acc rows),
        hasNonBlankField r = true := by
  intro rows
  induction rows with
  | nil =>
    intro acc hacc r hr
    simp only [processRows, studentsOfRows] at hr
    exact hacc r hr
  | cons row rest ih =>
    intro acc hacc
    simp only [processRows]
    by_cases hb : (row.isEmpty || row.all isBlankCell) = true
    · rw [if_pos hb]
      exact ih acc hacc
    · rw [if_neg hb]
      cases hrs : row_to_student row cm with
      | none =>
        intro r hr
        simp only [studentsOfRows] at hr
        exact hacc r hr
      | some s =>
        apply ih
        intro r hr
        by_cases he : s.is_empty = true
        · rw [if_pos he] at hr
          exact hacc r hr
        · rw [if_neg he] at hr
          rcases List.mem_append.mp hr with h | h
          · exact hacc r h
          · rw [List.mem_singleton] at h
            subst h
            have he' : r.is_empty = false := by
              cases hse : r.is_empty with
              | true => exact absurd hse he
              | false => rfl
            exact hasNonBlank_of_not_empty r
              (row_to_student_stripped row cm r hrs) he'

theorem matchRows_nonblank (m : ColMap) (rows : List Row)
    (acc : List StudentRecord) (cmv : Option ColMap)
    (hacc : ∀ r ∈ acc, hasNonBlankField r = true) :
    ∀ r ∈ studentsOfWalk (match processRows m acc rows with
      | .ok s => .ok (cmv, s)
      | .error e => .error e), hasNonBlankField r = true := by
  intro r hr
  cases hps : processRows m acc rows with
  | ok s =>
    rw [hps] at hr
    simp only [studentsOfWalk] at hr
    have hh := processRows_nonblank m rows acc hacc r
    rw [hps] at hh
    exact hh hr
  | error e =>
    rw [hps] at hr
    obtain ⟨sts, msg⟩ := e
    simp only [studentsOfWalk] at hr
    have hh := processRows_nonblank m rows acc hacc r
    rw [hps] at hh
    simp only [studentsOfRows] at hh
    exact hh hr

theorem processTable_nonblank (columns : Option Synonyms) (cm : Option ColMap)
    (acc : List StudentRecord) (table : Table)
    (hacc : ∀ r ∈ acc, hasNonBlankField r = true) :
    ∀ r ∈ studentsOfWalk (processTable columns cm acc table),
      hasNonBlankField r = true := by
  intro r hr
  unfold processTable at hr
  split at hr
  · simp only [studentsOfWalk] at hr
    exact hacc r hr
  · split at hr
    · split at hr
      · split at hr
        · split at hr
          · simp only [studentsOfWalk] at hr
            exact hacc r hr
          · exact matchRows_nonblank _ _ _ _ hacc r hr
        · simp only [studentsOfWalk] at hr
          exact hacc r hr
      · exact matchRows_nonblank _ _ _ _ hacc r hr
    · split at hr
      · exact matchRows_nonblank _ _ _ _ hacc r hr
      · exact matchRows_nonblank _ _ _ _ hacc r hr

theorem processTables_nonblank (columns : Option Synonyms) :
    ∀ (ts : List Table) (cm : Option ColMap) (acc : List StudentRecord),
      (∀ r ∈ acc, hasNonBlankField r = true) →
      ∀ r ∈ studentsOfWalk (processTables columns cm acc ts),
        hasNonBlankField r = true := by
  intro ts
  induction ts with
  | nil =>
    intro cm acc hacc r hr
    simp only [processTables, studentsOfWalk] at hr
    exact hacc r hr
  | cons t rest ih =>
    intro cm acc hacc r hr
    simp only [processTables] at hr
    cases hpt : processTable columns cm acc t with
    | ok pr =>
      obtain ⟨cm2, acc2⟩ := pr
      rw [hpt] at hr
      apply ih cm2 acc2 ?_ r hr
      intro r' hr'
      have hh := processTable_nonblank columns cm acc t hacc r'
      rw [hpt] at hh
      exact hh hr'
    | error e =>
      rw [hpt] at hr
      have hh := processTable_nonblank columns cm acc t hacc r
      rw [hpt] at hh
      exact hh hr

theorem walkPages_nonblank (columns : Option Synonyms) :
    ∀ (pgs : List (Except String (List Table))) (cm : Option ColMap)
      (acc : List StudentRecord),
      (∀ r ∈ acc, hasNonBlankField r = true) →
      ∀ r ∈ studentsOfWalk (walkPages columns cm acc pgs),
        hasNonBlankField r = true := by
  intro pgs
  induction pgs with
  | nil =>
    intro cm acc hacc r hr
    simp only [walkPages, studentsOfWalk] at hr
    exact hacc r hr
  | cons pg rest ih =>
    intro cm acc hacc r hr
    cases pg with
    | error e =>
      simp only [walkPages, studentsOfWalk] at hr
      exact hacc r hr
    | ok tables =>
      simp only [walkPages] at hr
      cases hpt : processTables columns cm acc tables with
      | ok pr =>
        obtain ⟨cm2, acc2⟩ := pr
        rw [hpt] at hr
        apply ih cm2 acc2 ?_ r hr
        intro r' hr'
        have hh := processTables_nonblank columns tables cm acc hacc r'
        rw [hpt] at hh
        exact hh hr'
      | error e =>
        rw [hpt] at hr
        have hh := processTables_nonblank columns tables cm acc hacc r
        rw [hpt] at hh
        exact hh hr

/-- C4: an all-blank candidate row is skipped without being projected, and
every record in extraction output has at least one non-blank field (all-blank
projected records are never appended). -/
theorem c4_output_records_nonblank :
    (∀ (p : PathInput) (opened : Except String PdfDoc) (cols : Option Synonyms)
      (r : StudentRecord), r ∈ (extract_from_pdf p opened cols).students →
      hasNonBlankField r = true) ∧
    (∀ (cm : ColMap) (acc : List StudentRecord) (row : Row) (rest : List Row),
      (row.isEmpty || row.all isBlankCell) = true →
      processRows cm acc (row :: rest) = processRows cm acc rest) := by
  constructor
  · intro p opened cols r hr
    cases opened with
    | error e =>
      simp only [extract_from_pdf, extractCore] at hr
      by_cases hp : p.pexists = false
      · rw [if_pos hp] at hr
        simp at hr
      · rw [if_neg hp] at hr
        by_cases hs : pyLower (pathSuffix (pathName p)) ≠ ".pdf"
        · rw [if_pos hs] at hr
          simp at hr
        · rw [if_neg hs] at hr
          simp at hr
    | ok doc =>
      simp only [extract_from_pdf, extractCore] at hr
      by_cases hp : p.pexists = false
      · rw [if_pos hp] at hr
        simp at hr
      · rw [if_neg hp] at hr
        by_cases hs : pyLower (pathSuffix (pathName p)) ≠ ".pdf"
        · rw [if_pos hs] at hr
          simp at hr
        · rw [if_neg hs] at hr
          by_cases hpg : doc.pages.isEmpty = true
          · rw [if_pos hpg] at hr
            simp at hr
          · rw [if_neg hpg] at hr
            split at hr
            · next cmv sts heq =>
                have hnb := walkPages_nonblank cols doc.pages none []
                  (by intro r' hr'; simp at hr') r
                rw [heq] at hnb
                simp only [studentsOfWalk] at hnb
                apply hnb
                by_cases hc : cmv.isNone = true
                · rw [if_pos hc] at hr
                  exact hr
                · rw [if_neg hc] at hr
                  exact hr
            · next sts e heq =>
                have hnb := walkPages_nonblank cols doc.pages none []
                  (by intro r' hr'; simp at hr') r
                rw [heq] at hnb
                simp only [studentsOfWalk] at hnb
                exact hnb hr
  · intro cm acc row rest hb
    rw [processRows, if_pos hb]

/-- Witness for C4: a successfully extracted record has a non-blank field,
and a concrete row of one blank cell and one null cell is skipped. -/
theorem c4_output_records_nonblank_witness :
    hasNonBlankField ⟨"Cruz", "Ana", "", "", ""⟩ = true ∧
    processRows [] [] [[some " ", none]] = processRows [] [] [] :=
  ⟨c4_output_records_nonblank.1 ⟨["t.pdf"], true⟩
      (.ok ⟨[.ok [[[some "No", some "Lastname", some "Firstname"],
                   [some "1", some "Cruz", some "Ana"]]]]⟩) none
      ⟨"Cruz", "Ana", "", "", ""⟩ (by decide),
   c4_output_records_nonblank.2 [] [] [some " ", none] [] (by decide)⟩

/-! ### C6: column maps pick the lowest matching index, once per field -/

theorem findSome?_mem {α β : Type} (g : α → Option β) :
    ∀ (l : List α) (b : β), l.findSome? g = some b → ∃ a ∈ l, g a = some b := by
  intro l
  induction l with
  | nil => intro b h; simp [List.findSome?] at h
  | cons a t ih =>
    intro b h
    rw [List.findSome?_cons] at h
    cases hg : g a with
    | some c =>
      rw [hg] at h
      injection h with h
      subst h
      exact ⟨a, by simp, hg⟩
    | none =>
      rw [hg] at h
      obtain ⟨a2, ha2, hg2⟩ := ih b h
      exact ⟨a2, by simp [ha2], hg2⟩

/-- A successful header match always returns one of the canonical names of
the (resolved) synonym table. -/
theorem match_column_mem_keys (h : String) (cols : Option Synonyms) (f : String)
    (hm : match_column h cols = some f) :
    ∃ cv ∈ resolveColumns cols, cv.1 = f := by
  simp only [match_column] at hm
  by_cases hh : normalise (some h) = ""
  · rw [if_pos hh] at hm
    exact Option.noConfusion hm
  · rw [if_neg hh] at hm
    obtain ⟨cv, hcv, hinner⟩ := findSome?_mem _ _ _ hm
    obtain ⟨v, _, hvv⟩ := findSome?_mem _ _ _ hinner
    refine ⟨cv, hcv, ?_⟩
    by_cases hc : (strIn v (normalise (some h)) || strIn (normalise (some h)) v) = true
    · rw [if_pos hc] at hvv
      injection hvv
    · rw [if_neg hc] at hvv
      exact Option.noConfusion hvv

/-- Membership in `buildMapFrom`: an entry is either already in the
accumulator or the first (lowest-offset) cell matching a fresh field. -/
theorem mem_buildMapFrom (cols : Option Synonyms) :
    ∀ (t : List (Option String)) (idx : Nat) (acc : ColMap) (i : Nat) (f : String),
    (i, f) ∈ buildMapFrom cols idx acc t ↔
      (i, f) ∈ acc ∨
      (∃ k, k < t.length ∧ i = idx + k ∧ matchCell (t.getD k none) cols = some f ∧
        f ≠ "" ∧ (∀ q ∈ acc, q.2 ≠ f) ∧
        ∀ k', k' < k → matchCell (t.getD k' none) cols ≠ some f) := by
  intro t
  induction t with
  | nil =>
    intro idx acc i f
    simp [buildMapFrom]
  | cons c t ih =>
    intro idx acc i f
    cases hc : matchCell c cols with
    | none =>
      simp only [buildMapFrom, hc]
      rw [ih]
      apply or_congr_right
      constructor
      · rintro ⟨k, hk, hi, hm, hf, hfr, hall⟩
        refine ⟨k + 1, by simp; omega, by omega, by simpa using hm, hf, hfr, ?_⟩
        intro k2 hk2
        cases k2 with
        | zero => simp [hc]
        | succ k3 =>
          simpa using hall k3 (by omega)
      · rintro ⟨k, hk, hi, hm, hf, hfr, hall⟩
        cases k with
        | zero =>
          rw [List.getD_cons_zero, hc] at hm
          exact absurd hm (by simp)
        | succ k3 =>
          refine ⟨k3, by simp at hk; omega, by omega, by simpa using hm, hf, hfr, ?_⟩
          intro k2 hk2
          have := hall (k2 + 1) (by omega)
          simpa using this
    | some f0 =>
      by_cases hacc : f0 ≠ "" ∧ ∀ q ∈ acc, q.2 ≠ f0
      · simp only [buildMapFrom, hc, if_pos hacc]
        rw [ih]
        constructor
        · rintro (hmem | ⟨k, hk, hi, hm, hf, hfr, hall⟩)
          · rcases List.mem_append.mp hmem with hmem | hmem
            · exact Or.inl hmem
            · rw [List.mem_singleton] at hmem
              injection hmem with hmi hmf
              refine Or.inr ⟨0, by simp, by omega, ?_, ?_, ?_, ?_⟩
              · rw [List.getD_cons_zero, hc, hmf]
              · rw [hmf]; exact hacc.1
              · rw [hmf]; exact hacc.2
              · intro k2 hk2; omega
          · have hfr2 : ∀ q ∈ acc, q.2 ≠ f := fun q hq =>
              hfr q (List.mem_append_left _ hq)
            have hneq : f ≠ f0 := by
              intro he
              exact hfr (idx, f0) (List.mem_append_right _ (by simp)) (by simp [he])
            refine Or.inr ⟨k + 1, by simp; omega, by omega, by simpa using hm, hf,
              hfr2, ?_⟩
            intro k2 hk2
            cases k2 with
            | zero =>
              rw [List.getD_cons_zero, hc]
              intro hcon
              injection hcon with hcon
              exact hneq hcon.symm
            | succ k3 =>
              simpa using hall k3 (by omega)
        · rintro (hmem | ⟨k, hk, hi, hm, hf, hfr, hall⟩)
          · exact Or.inl (List.mem_append_left _ hmem)
          · cases k with
            | zero =>
              rw [List.getD_cons_zero, hc] at hm
              injection hm with hm
              refine Or.inl (List.mem_append_right _ ?_)
              simp [hm, hi]
            | succ k3 =>
              have hneq : f ≠ f0 := by
                intro he
                have := hall 0 (by omega)
                rw [List.getD_cons_zero, hc, he] at this
                exact this rfl
              refine Or.inr ⟨k3, by simp at hk; omega, by omega, by simpa using hm,
                hf, ?_, ?_⟩
              · intro q hq
                rcases List.mem_append.mp hq with hq | hq
                · exact hfr q hq
                · rw [List.mem_singleton] at hq
                  subst hq
                  simpa using hneq.symm
              · intro k2 hk2
                have := hall (k2 + 1) (by omega)
                simpa using this
      · simp only [buildMapFrom, hc, if_neg hacc]
        rw [ih]
        apply or_congr_right
        constructor
        · rintro ⟨k, hk, hi, hm, hf, hfr, hall⟩
          have hneq : f ≠ f0 := by
            intro he
            subst he
            exact hacc ⟨hf, hfr⟩
          refine ⟨k + 1, by simp; omega, by omega, by simpa using hm, hf, hfr, ?_⟩
          intro k2 hk2
          cases k2 with
          | zero =>
            rw [List.getD_cons_zero, hc]
            intro hcon
            injection hcon with hcon
            exact hneq hcon.symm
          | succ k3 =>
            simpa using hall k3 (by omega)
        · rintro ⟨k, hk, hi, hm, hf, hfr, hall⟩
          cases k with
          | zero =>
            rw [List.getD_cons_zero, hc] at hm
            injection hm with hm
            subst hm
            exact absurd ⟨hf, hfr⟩ hacc
          | succ k3 =>
            refine ⟨k3, by simp at hk; omega, by omega, by simpa using hm, hf,
              hfr, ?_⟩
            intro k2 hk2
            have := hall (k2 + 1) (by omega)
            simpa using this

theorem buildMapFrom_append (cols : Option Synonyms) :
    ∀ (t : List (Option String)) (idx : Nat) (acc : ColMap),
      ∃ rest, buildMapFrom cols idx acc t = acc ++ rest := by
  intro t
  induction t with
  | nil => intro idx acc; exact ⟨[], by simp [buildMapFrom]⟩
  | cons c t ih =>
    intro idx acc
    cases hc : matchCell c cols with
    | none =>
      obtain ⟨rest, hrest⟩ := ih (idx + 1) acc
      exact ⟨rest, by simp only [buildMapFrom, hc]; exact hrest⟩
    | some f0 =>
      by_cases hacc : f0 ≠ "" ∧ ∀ q ∈ acc, q.2 ≠ f0
      · obtain ⟨rest, hrest⟩ := ih (idx + 1) (acc ++ [(idx, f0)])
        refine ⟨(idx, f0) :: rest, ?_⟩
        simp only [buildMapFrom, hc, if_pos hacc]
        rw [hrest]
        simp
      · obtain ⟨rest, hrest⟩ := ih (idx + 1) acc
        exact ⟨rest, by simp only [buildMapFrom, hc, if_neg hacc]; exact hrest⟩

theorem buildMapFrom_nil_empty_iff (cols : Option Synonyms)
    (hNE : ∀ cv ∈ resolveColumns cols, cv.1 ≠ "") :
    ∀ (t : List (Option String)) (idx : Nat),
      buildMapFrom cols idx [] t = [] ↔ ∀ c ∈ t, matchCell c cols = none := by
  intro t
  induction t with
  | nil => intro idx; simp [buildMapFrom]
  | cons c t ih =>
    intro idx
    cases hc : matchCell c cols with
    | none =>
      simp only [buildMapFrom, hc]
      rw [ih (idx + 1)]
      simp [hc]
    | some f0 =>
      have hf0 : f0 ≠ "" := by
        obtain ⟨cv, hcv, he⟩ := match_column_mem_keys _ cols f0 hc
        rw [← he]
        exact hNE cv hcv
      have hcond : f0 ≠ "" ∧ ∀ q ∈ ([] : ColMap), q.2 ≠ f0 := ⟨hf0, by simp⟩
      simp only [buildMapFrom, hc, if_pos hcond, List.nil_append]
      obtain ⟨rest, hrest⟩ := buildMapFrom_append cols t (idx + 1) [(idx, f0)]
      rw [hrest]
      constructor
      · intro habs
        exact absurd habs (by simp)
      · intro hall
        have := hall c (by simp)
        rw [hc] at this
        exact absurd this (by simp)

/-- C6: for every header row and synonym table (whose canonical names are
non-empty, as the data model requires), the column map contains `(i, f)`
exactly when column `i` is the lowest index whose cell matches `f`; hence
each canonical field is claimed by at most one column, and the map is empty
iff no cell matches any canonical field. -/
theorem c6_column_map_first_match :
    ∀ (headers : List (Option String)) (cols : Option Synonyms),
    (∀ cv ∈ resolveColumns cols, cv.1 ≠ "") →
    (∀ i j f, (i, f) ∈ build_column_map headers cols →
      (j, f) ∈ build_column_map headers cols → i = j) ∧
    (∀ i f, (i, f) ∈ build_column_map headers cols ↔
      (i < headers.length ∧ matchCell (headers.getD i none) cols = some f ∧
        ∀ j, j < i → matchCell (headers.getD j none) cols ≠ some f)) ∧
    (build_column_map headers cols = [] ↔
      ∀ c ∈ headers, matchCell c cols = none) := by
  intro headers cols hNE
  have hiff : ∀ i f, (i, f) ∈ build_column_map headers cols ↔
      (i < headers.length ∧ matchCell (headers.getD i none) cols = some f ∧
        ∀ j, j < i → matchCell (headers.getD j none) cols ≠ some f) := by
    intro i f
    unfold build_column_map
    rw [mem_buildMapFrom]
    constructor
    · rintro (hmem | ⟨k, hk, hi, hm, _, _, hall⟩)
      · simp at hmem
      · have hik : i = k := by omega
        subst hik
        exact ⟨hk, hm, hall⟩
    · rintro ⟨hi, hm, hall⟩
      have hf : f ≠ "" := by
        obtain ⟨cv, hcv, he⟩ := match_column_mem_keys _ cols f hm
        rw [← he]
        exact hNE cv hcv
      exact Or.inr ⟨i, hi, by omega, hm, hf, by simp, hall⟩
  refine ⟨?_, hiff, ?_⟩
  · intro i j f hi hj
    rw [hiff] at hi hj
    rcases Nat.lt_trichotomy i j with h | h | h
    · exact absurd hi.2.1 (hj.2.2 i h)
    · exact h
    · exact absurd hj.2.1 (hi.2.2 j h)
  · exact buildMapFrom_nil_empty_iff cols hNE headers 0

/-- Witness for C6: on the header row `[No, Lastname, Surname]` with the
default synonym table, column 1 claims `lastname` (and column 2, which also
matches `lastname`, is ignored). -/
theorem c6_column_map_first_match_witness :
    (1, "lastname") ∈ build_column_map [some "No", some "Lastname", some "Surname"] none :=
  ((c6_column_map_first_match [some "No", some "Lastname", some "Surname"] none
    (by decide)).2.1 1 "lastname").mpr (by decide)

/-! ### C7 amended: the matcher seen through normalisation -/

theorem findSome?_if_any (c : String) (test : String → Bool) :
    ∀ vs : List String,
      (vs.findSome? fun v => if test v then some c else none) =
      if vs.any test then some c else none := by
  intro vs
  induction vs with
  | nil => simp [List.findSome?]
  | cons v rest ih =>
    rw [List.findSome?_cons]
    by_cases hv : test v = true
    · simp [hv]
    · simp [hv, ih]

theorem toLower_of_ws (c : Char) (h : c.isWhitespace = true) : c.toLower = c := by
  simp [Char.isWhitespace] at h
  rcases h with ((h | h) | h) | h <;> subst h <;> decide

theorem pyWordsGo_nil_of_ws :
    ∀ l : List Char, (∀ c ∈ l, c.isWhitespace = true) → pyWordsGo [] l = [] := by
  intro l h
  induction l with
  | nil => rfl
  | cons c cs ih =>
    simp only [pyWordsGo]
    rw [if_pos (h c (by simp))]
    simp only [List.isEmpty_nil, if_true]
    exact ih fun c2 hc2 => h c2 (by simp [hc2])

theorem normalise_of_ws (s : String) (h : ∀ c ∈ s.data, c.isWhitespace = true) :
    normalise (some s) = "" := by
  have hmap : ∀ c ∈ s.data.map Char.toLower, c.isWhitespace = true := by
    intro c hc
    rw [List.mem_map] at hc
    obtain ⟨d, hd, rfl⟩ := hc
    rw [toLower_of_ws d (h d hd)]
    exact h d hd
  simp only [normalise, pyWords]
  rw [pyWordsGo_nil_of_ws _ hmap]
  rfl

/-- C7 amended: the Header Matcher equals its spec-side restatement (first
canonical field in declaration order with a bidirectionally-matching
synonym); it returns no match for empty or whitespace-only input; headers
with equal normalisations (same letters case-folded, surrounding whitespace
removed, internal whitespace runs collapsed to single spaces) resolve the
same — but, as the counterexample shows, inserting or deleting whitespace
between non-space characters can change the result, so matching is not
whitespace-insensitive in the unrestricted sense; "  Last Name  " and
"LASTNAME" both resolve to `lastname`. -/
theorem c7_matcher_normalised :
    (∀ (h : String) (cols : Option Synonyms),
      match_column h cols = match_column_spec h cols) ∧
    (∀ (h : String) (cols : Option Synonyms),
      normalise (some h) = "" → match_column h cols = none) ∧
    (∀ (s : String) (cols : Option Synonyms),
      (∀ c ∈ s.data, c.isWhitespace = true) → match_column s cols = none) ∧
    (∀ (h₁ h₂ : String) (cols : Option Synonyms),
      normalise (some h₁) = normalise (some h₂) →
      match_column h₁ cols = match_column h₂ cols) ∧
    match_column "  Last Name  " none = some "lastname" ∧
    match_column "LASTNAME" none = some "lastname" := by
  refine ⟨?_, ?_, ?_, ?_, rfl, rfl⟩
  · intro h cols
    simp only [match_column, match_column_spec]
    by_cases hh : normalise (some h) = ""
    · rw [if_pos hh, if_pos hh]
    · rw [if_neg hh, if_neg hh]
      congr 1
      funext cv
      exact findSome?_if_any cv.1 _ cv.2
  · intro h cols hh
    simp only [match_column]
    rw [if_pos hh]
  · intro s cols hs
    simp only [match_column]
    rw [if_pos (normalise_of_ws s hs)]
  · intro h₁ h₂ cols he
    simp only [match_column]
    rw [he]

/-- Witness for C7 amended: a whitespace-only header matches nothing. -/
theorem c7_matcher_normalised_witness :
    match_column "  " none = none :=
  c7_matcher_normalised.2.2.1 "  " none (by decide)

/-! ### C9 amended: the composer against its spec -/

theorem str_append_ne (s t : String) (h : s ≠ "") : s ++ t ≠ "" := by
  intro he
  apply h
  cases s with
  | mk l =>
    cases t with
    | mk m =>
      have hd : l ++ m = [] := congrArg String.data he
      rw [List.append_eq_nil] at hd
      rw [hd.1]

theorem pyOr_final_form (last after : String) :
    (if last ≠ "" ∧ after ≠ "" then last ++ ", " ++ after
      else pyOr last (pyOr after "")) =
    (if last = "" then after
      else if after = "" then last
      else last ++ ", " ++ after) := by
  by_cases hl : last = "" <;> by_cases ha : after = "" <;> simp [pyOr, hl, ha]

theorem build_full_name_eq_spec (l f m e : String)
    (h : pystrip f ≠ "" ∨ (pystrip m = "" ∧ pystrip e = "")) :
    build_full_name l f m e = full_name_spec l f m e := by
  have hparts : joinSpace ([pystrip f] ++
        (if pystrip m ≠ "" then [pystrip m] else []) ++
        (if pystrip e ≠ "" then [pystrip e] else [])) =
      joinSpace ([pystrip f, pystrip m, pystrip e].filter (fun s => s ≠ "")) := by
    rcases h with hf | ⟨hm, he⟩
    · by_cases hm : pystrip m = "" <;> by_cases he : pystrip e = "" <;>
        simp [List.filter, hf, hm, he]
    · by_cases hf : pystrip f = "" <;>
        simp [List.filter, joinSpace, hf, hm, he]
  simp only [build_full_name, full_name_spec]
  rw [hparts]
  exact pyOr_final_form _ _

/-- C9 amended: the composer agrees with the spec's "empty parts omitted,
separators collapsed" contract whenever the stripped firstname is non-empty
or both middlename and extension strip to empty (in particular on the four
§8 examples, reproduced below); when firstname is blank but middlename or
extension is not, the code inserts an extra space (see the counterexample). -/
theorem c9_full_name :
    (∀ l f m e : String, pystrip f ≠ "" →
      build_full_name l f m e = full_name_spec l f m e) ∧
    (∀ l f m e : String, pystrip m = "" → pystrip e = "" →
      build_full_name l f m e = full_name_spec l f m e) ∧
    build_full_name "Dela Cruz" "Juan" "Santos" "Jr." = "Dela Cruz, Juan Santos Jr." ∧
    build_full_name "Reyes" "Maria" "" "" = "Reyes, Maria" ∧
    build_full_name "Cruz" "" "" "" = "Cruz" ∧
    build_full_name "" "" "" "" = "" := by
  refine ⟨?_, ?_, ?_, ?_, ?_, ?_⟩
  · intro l f m e hf
    exact build_full_name_eq_spec l f m e (Or.inl hf)
  · intro l f m e hm he
    exact build_full_name_eq_spec l f m e (Or.inr ⟨hm, he⟩)
  · rfl
  · rfl
  · rfl
  · rfl

/-- Witness for C9 amended: a concrete instance with non-blank firstname. -/
theorem c9_full_name_witness :
    build_full_name "Reyes" "Maria" "x" "" = full_name_spec "Reyes" "Maria" "x" "" :=
  c9_full_name.1 "Reyes" "Maria" "x" "" (by decide)

end PdfAttendance
